import Mathlib

/-!
Verification of the ring-lifecycle and breach-detection logic of the
concentric-arc escape simulation (`src/main.py`).

The embedding is shallow: Python floats are modelled as real numbers,
the mutable locals of `main` (`circles`, `balls`, `active_circle_index`,
`particles`, `time_left`) become fields of explicit state records, and
each phase of the per-tick loop body becomes a pure function on those
records.  Randomness (particle angles, spawn positions, initial ball
velocities) is abstracted by passing the randomly drawn values as
explicit parameters.
-/

open Real

/-- Python float modulo: `a % b = a - b * floor (a / b)` (for `b ≠ 0`).
Used by `angle_in_range` and for the `% (2 * math.pi)` reductions in
`main.py`. -/
noncomputable def fmod (a b : ℝ) : ℝ := a - b * ⌊a / b⌋

/-- `angle_in_range` from `main.py` lines 31-42: reduce all three arguments
modulo 2π, then test containment in the circular interval from `start` to
`stop`, wrapping through 0 when `start ≥ stop` after reduction. -/
noncomputable def angle_in_range (angle start stop : ℝ) : Bool :=
  let a := fmod angle (2 * π)
  let s := fmod start (2 * π)
  let e := fmod stop (2 * π)
  if s < e then decide (s ≤ a ∧ a ≤ e) else decide (a ≥ s ∨ a ≤ e)

/-- If `0 ≤ x < b` then reduction modulo `b` leaves `x` unchanged. -/
theorem fmod_eq_self {x b : ℝ} (h0 : 0 ≤ x) (h1 : x < b) : fmod x b = x := by
  have hb : 0 < b := lt_of_le_of_lt h0 h1
  have hfloor : ⌊x / b⌋ = 0 := by
    rw [Int.floor_eq_zero_iff]
    constructor
    · exact div_nonneg h0 hb.le
    · rw [div_lt_one hb]; exact h1
  simp [fmod, hfloor]

theorem two_pi_pos : (0 : ℝ) < 2 * π := by positivity

/-- Unfolded form of `angle_in_range` as a proposition. -/
theorem angle_in_range_eq_true (angle start stop : ℝ) :
    angle_in_range angle start stop = true ↔
      (if fmod start (2 * π) < fmod stop (2 * π) then
        fmod start (2 * π) ≤ fmod angle (2 * π) ∧
          fmod angle (2 * π) ≤ fmod stop (2 * π)
      else
        fmod angle (2 * π) ≥ fmod start (2 * π) ∨
          fmod angle (2 * π) ≤ fmod stop (2 * π)) := by
  unfold angle_in_range
  by_cases h : fmod start (2 * π) < fmod stop (2 * π)
  · simp only [h, if_pos, if_true, decide_eq_true_eq]
  · simp only [h, if_neg, if_false, decide_eq_true_eq]

/-- Claim C3: `angle_in_range` first reduces all three arguments modulo 2π;
when the reduced start is below the reduced end it is the plain inclusive
range check, otherwise (interval wrapping through 0) it holds iff the angle
is at or above the start or at or below the end.  Both interval boundaries
are inside the interval, for any arguments.  The concrete non-wrapping
examples from the specification evaluate as stated.  (The function is a
pure function of its arguments by construction, so it has no side
effects.) -/
theorem angle_in_range_characterization :
    (∀ a s e : ℝ,
      (angle_in_range a s e = true ↔
        (if fmod s (2 * π) < fmod e (2 * π) then
          fmod s (2 * π) ≤ fmod a (2 * π) ∧ fmod a (2 * π) ≤ fmod e (2 * π)
        else
          fmod a (2 * π) ≥ fmod s (2 * π) ∨ fmod a (2 * π) ≤ fmod e (2 * π)))) ∧
    (∀ s e : ℝ, angle_in_range s s e = true ∧ angle_in_range e s e = true) ∧
    angle_in_range 1 0.5 1.5 = true ∧ angle_in_range 1.6 0.5 1.5 = false := by
  have hpi : (3 : ℝ) < π := Real.pi_gt_three
  refine ⟨angle_in_range_eq_true, ?_, ?_, ?_⟩
  · intro s e
    constructor
    · rw [angle_in_range_eq_true]
      by_cases h : fmod s (2 * π) < fmod e (2 * π)
      · simp only [h, if_pos, if_true]
        exact ⟨le_refl _, h.le⟩
      · simp only [h, if_neg, if_false]
        exact Or.inl (le_refl _)
    · rw [angle_in_range_eq_true]
      by_cases h : fmod s (2 * π) < fmod e (2 * π)
      · simp only [h, if_pos, if_true]
        exact ⟨h.le, le_refl _⟩
      · simp only [h, if_neg, if_false]
        exact Or.inr (le_refl _)
  · rw [angle_in_range_eq_true]
    rw [fmod_eq_self (by norm_num) (by linarith),
        fmod_eq_self (by norm_num) (by linarith),
        fmod_eq_self (by norm_num) (by linarith)]
    norm_num
  · rw [Bool.eq_false_iff]
    intro hcon
    rw [angle_in_range_eq_true] at hcon
    rw [fmod_eq_self (by norm_num) (by linarith),
        fmod_eq_self (by norm_num) (by linarith),
        fmod_eq_self (by norm_num) (by linarith)] at hcon
    norm_num at hcon

/-- Python `math.atan2` over the reals (the standard two-argument
arctangent convention; `atan2 0 0 = 0` as in CPython). -/
noncomputable def atan2 (y x : ℝ) : ℝ :=
  if 0 < x then Real.arctan (y / x)
  else if x < 0 then
    (if 0 ≤ y then Real.arctan (y / x) + π else Real.arctan (y / x) - π)
  else
    (if 0 < y then π / 2 else if y < 0 then -(π / 2) else 0)

/-- A dynamic ball, as read by the breach detector: position, velocity
(owned by the physics engine in `main.py`, class `Ball`) and radius. -/
structure BallS where
  px : ℝ
  py : ℝ
  vx : ℝ
  vy : ℝ
  radius : ℝ

/-- One rotating arc barrier (`RotatingArcCircle` in `main.py`): its
geometric parameters, the current accumulated body rotation
(`self.body.angle`, advanced by the physics engine), and the active flag. -/
structure RotatingArcCircle where
  radius : ℝ
  arc_start : ℝ
  arc_length : ℝ
  angular_velocity : ℝ
  body_angle : ℝ
  active : Bool

/-- `get_gap_angles` from `main.py` lines 99-102: current world-space gap
boundaries, each reduced modulo 2π. -/
noncomputable def get_gap_angles (c : RotatingArcCircle) : ℝ × ℝ :=
  (fmod (c.arc_start + c.arc_length + c.body_angle) (2 * π),
   fmod (c.arc_start + 2 * π + c.body_angle) (2 * π))

/-- The fixed configuration of the breach detector: the common center and
the ring-geometry constants `base_radius_val` and `radius_increment` of
`main`. -/
structure Config where
  cx : ℝ
  cy : ℝ
  base_radius_val : ℝ
  radius_increment : ℝ

/-- The state mutated by the breach-detection phase of the loop body of
`main` (lines 294-354): the ring list, the ball list and
`active_circle_index`. -/
structure GameState where
  circles : List RotatingArcCircle
  balls : List BallS
  active_circle_index : ℤ

/-- One step of the escape-index scan (`main.py` lines 296-305): fold a
ball into the running maximum `m`.  A ball participates only when its
radial vector is nonzero and its velocity has positive dot product with
the radial vector; then its escape index is
`⌊(|radial| + ball.radius - base_radius_val) / radius_increment⌋`
(Python `int(x // y)` on nonnegative-divisor floats is the floor of the
quotient). -/
noncomputable def escape_step (cfg : Config) (m : ℤ) (b : BallS) : ℤ :=
  let dx := b.px - cfg.cx
  let dy := b.py - cfg.cy
  let len := Real.sqrt (dx ^ 2 + dy ^ 2)
  if 0 < len ∧ 0 < b.vx * dx + b.vy * dy then
    let e := ⌊(len + b.radius - cfg.base_radius_val) / cfg.radius_increment⌋
    if m < e then e else m
  else m

/-- `max_escape_index` of `main.py` lines 295-305: the scan starts from the
current active index and folds every ball through `escape_step`. -/
noncomputable def max_escape_index (cfg : Config) (idx : ℤ) (balls : List BallS) : ℤ :=
  balls.foldl (escape_step cfg) idx

/-- Specification-side predicate: the ball qualifies for the escape scan
(nonzero radial vector and positive outward radial speed). -/
noncomputable def qualifies (cfg : Config) (b : BallS) : Prop :=
  0 < Real.sqrt ((b.px - cfg.cx) ^ 2 + (b.py - cfg.cy) ^ 2) ∧
    0 < b.vx * (b.px - cfg.cx) + b.vy * (b.py - cfg.cy)

/-- Specification-side value: the escape index of a qualifying ball. -/
noncomputable def esc (cfg : Config) (b : BallS) : ℤ :=
  ⌊(Real.sqrt ((b.px - cfg.cx) ^ 2 + (b.py - cfg.cy) ^ 2) + b.radius -
      cfg.base_radius_val) / cfg.radius_increment⌋

/-- The breach condition of the precise test (`main.py` lines 329-336):
the ball's outer edge has reached the ring radius, the ball is moving
outward, and its angular position lies in the ring's current gap. -/
noncomputable def breach_cond (cfg : Config) (c : RotatingArcCircle) (b : BallS) : Bool :=
  let dx := b.px - cfg.cx
  let dy := b.py - cfg.cy
  let len := Real.sqrt (dx ^ 2 + dy ^ 2)
  if c.radius ≤ len + b.radius ∧ 0 < b.vx * dx + b.vy * dy then
    angle_in_range (fmod (atan2 dy dx) (2 * π))
      (get_gap_angles c).1 (get_gap_angles c).2
  else false

/-- The 1.1× velocity boost applied to every ball when the precise breach
test destroys the active ring (`main.py` lines 351-353). -/
noncomputable def boost (b : BallS) : BallS :=
  { b with vx := b.vx * 1.1, vy := b.vy * 1.1 }

/-- Helper for the destruction loops: starting at position index `n`, set
`active := false` on every list element whose absolute index `i` satisfies
`lo ≤ i < hi`.  (`RotatingArcCircle.remove` only mutates the active flag
and the physics space, so indexwise deactivation is the whole state
effect of `circles[i].remove(space)`.) -/
def remove_range_aux (lo hi : ℤ) : ℕ → List RotatingArcCircle → List RotatingArcCircle
  | _, [] => []
  | n, c :: rest =>
    (if lo ≤ (n : ℤ) ∧ (n : ℤ) < hi then { c with active := false } else c) ::
      remove_range_aux lo hi (n + 1) rest

/-- Deactivate every circle with index in `[lo, hi)`. -/
def remove_range (circles : List RotatingArcCircle) (lo hi : ℤ) : List RotatingArcCircle :=
  remove_range_aux lo hi 0 circles

/-- The breach-detection phase of one tick (`main.py` lines 294-354):
run the escape scan; if its maximum exceeds the active index, destroy
every (still-active) ring with index in `[active, min max len)` and jump
the active index to the maximum; otherwise run the precise per-ball breach
test on the single ring at the active index, and on the first breaching
ball destroy that ring, advance the index by one and boost every ball.
(Particle spawning and sounds are external effects not represented in the
state; the index is nonnegative throughout the loop, so `Int.toNat`
indexing agrees with Python's nonnegative list indexing.) -/
noncomputable def breach_step (cfg : Config) (s : GameState) : GameState :=
  let m := max_escape_index cfg s.active_circle_index s.balls
  if s.active_circle_index < m then
    { s with
      circles :=
        remove_range s.circles s.active_circle_index
          (min m (s.circles.length : ℤ)),
      active_circle_index := m }
  else if s.active_circle_index < (s.circles.length : ℤ) then
    match s.circles.get? s.active_circle_index.toNat with
    | some c =>
      if c.active then
        if s.balls.any (breach_cond cfg c) then
          { s with
            circles :=
              remove_range s.circles s.active_circle_index
                (s.active_circle_index + 1),
            active_circle_index := s.active_circle_index + 1,
            balls := s.balls.map boost }
        else s
      else s
    | none => s
  else s

/-- A vanish-effect particle (`Particle` in `main.py`). -/
structure Particle where
  posx : ℝ
  posy : ℝ
  velx : ℝ
  vely : ℝ
  lifetime : ℝ
  color : ℕ × ℕ × ℕ
  radius : ℝ

/-- `Particle.update` from `main.py` lines 139-141. -/
noncomputable def Particle.update (p : Particle) (dt : ℝ) : Particle :=
  { p with
    posx := p.posx + p.velx * dt,
    posy := p.posy + p.vely * dt,
    lifetime := p.lifetime - dt }

/-- The particle phase of one tick (`main.py` lines 356-358): update every
particle, then keep only those with positive remaining lifetime. -/
noncomputable def step_particles (ps : List Particle) (dt : ℝ) : List Particle :=
  (ps.map (Particle.update · dt)).filter (fun p => decide (0 < p.lifetime))

/-- The match state at the end of a tick. -/
inductive MatchState where
  | Running
  | Won
  | Lost
deriving DecidableEq

/-- The terminal-state evaluation at the end of each tick (`main.py`
lines 381-386): the win test (`active_circle_index >= len(circles) and
arcs_left < -100`, where `arcs_left = len(circles) - active_circle_index`)
is evaluated first; only if it fails is `time_left <= 0` tested. -/
noncomputable def end_state (n : ℕ) (idx : ℤ) (time_left : ℝ) : MatchState :=
  if (n : ℤ) ≤ idx ∧ (n : ℤ) - idx < -100 then MatchState.Won
  else if time_left ≤ 0 then MatchState.Lost
  else MatchState.Running

/-- The observable outcome of one invocation of the ball-ball collision
callback. -/
structure CallbackResult where
  balls : List BallS
  hits : ℕ
  sound_played : Bool
  accepted : Bool

/-- `ball_ball_collision` from `main.py` lines 222-250: when the ball list
holds fewer than 100 balls, it increments the hit counter, plays a hit
sound (when the sound assets loaded), and appends one freshly spawned
ball (`new_ball` stands for the randomly placed ball built inside the
callback); otherwise it changes nothing.  It returns `True` in both
cases, so the physics engine always resolves the bounce. -/
def ball_ball_collision (sounds_loaded : Bool) (balls : List BallS)
    (hits : ℕ) (new_ball : BallS) : CallbackResult :=
  if balls.length < 100 then
    { balls := balls ++ [new_ball], hits := hits + 1,
      sound_played := sounds_loaded, accepted := true }
  else
    { balls := balls, hits := hits, sound_played := false, accepted := true }

/-- Ball lists reachable from the initial setup: after `main` creates the
`initial_balls` starting balls, the ball-ball collision callback is the
only code that ever adds to (or otherwise modifies) the ball list. -/
inductive BallsReachable (init : List BallS) : List BallS → Prop
  | base : BallsReachable init init
  | collide (sounds_loaded : Bool) (hits : ℕ) (new_ball : BallS) {bs : List BallS} :
      BallsReachable init bs →
      BallsReachable init (ball_ball_collision sounds_loaded bs hits new_ball).balls

/-- A qualifying ball folds in as a maximum with its escape index. -/
theorem escape_step_of_qualifies {cfg : Config} {b : BallS} (m : ℤ)
    (hq : qualifies cfg b) : escape_step cfg m b = max m (esc cfg b) := by
  simp only [escape_step, qualifies, esc] at *
  rw [if_pos hq]
  rcases lt_or_ge m ⌊(Real.sqrt ((b.px - cfg.cx) ^ 2 + (b.py - cfg.cy) ^ 2) +
      b.radius - cfg.base_radius_val) / cfg.radius_increment⌋ with hlt | hge
  · rw [if_pos hlt, max_eq_right hlt.le]
  · rw [if_neg (not_lt.mpr hge), max_eq_left hge]

/-- A non-qualifying ball leaves the scan accumulator unchanged. -/
theorem escape_step_of_not_qualifies {cfg : Config} {b : BallS} (m : ℤ)
    (hq : ¬ qualifies cfg b) : escape_step cfg m b = m := by
  simp only [escape_step, qualifies, esc] at *
  rw [if_neg hq]

/-- The escape-index scan computes exactly the maximum of the current
active index and the escape indices of the qualifying balls. -/
theorem foldl_escape_spec (cfg : Config) :
    ∀ (balls : List BallS) (idx : ℤ),
      idx ≤ balls.foldl (escape_step cfg) idx ∧
      (∀ b ∈ balls, qualifies cfg b →
        esc cfg b ≤ balls.foldl (escape_step cfg) idx) ∧
      (balls.foldl (escape_step cfg) idx = idx ∨
        ∃ b ∈ balls, qualifies cfg b ∧
          esc cfg b = balls.foldl (escape_step cfg) idx)
  | [], idx => by simp
  | b :: bs, idx => by
    obtain ⟨ih1, ih2, ih3⟩ := foldl_escape_spec cfg bs (escape_step cfg idx b)
    have hidxj : idx ≤ escape_step cfg idx b := by
      by_cases hq : qualifies cfg b
      · rw [escape_step_of_qualifies idx hq]; exact le_max_left _ _
      · rw [escape_step_of_not_qualifies idx hq]
    have hbj : qualifies cfg b → esc cfg b ≤ escape_step cfg idx b := by
      intro hq
      rw [escape_step_of_qualifies idx hq]
      exact le_max_right _ _
    refine ⟨le_trans hidxj (by simpa using ih1), ?_, ?_⟩
    · intro b' hb' hq'
      rcases List.mem_cons.mp hb' with rfl | hmem
      · exact le_trans (hbj hq') (by simpa using ih1)
      · simpa using ih2 b' hmem hq'
    · rcases ih3 with heq | ⟨b', hmem, hq', hesc⟩
      · by_cases hq : qualifies cfg b
        · rw [escape_step_of_qualifies idx hq] at heq
          rcases max_choice idx (esc cfg b) with hmax | hmax
          · exact Or.inl (by
              simp only [List.foldl_cons]
              rw [escape_step_of_qualifies idx hq, heq, hmax])
          · exact Or.inr ⟨b, List.mem_cons_self _ _, hq,
              by simp only [List.foldl_cons]
                 rw [escape_step_of_qualifies idx hq, heq, hmax]⟩
        · rw [escape_step_of_not_qualifies idx hq] at heq
          exact Or.inl (by
            simp only [List.foldl_cons]
            rw [escape_step_of_not_qualifies idx hq, heq])
      · exact Or.inr ⟨b', List.mem_cons_of_mem _ hmem, hq',
          by simpa using hesc⟩

/-- Indexwise description of `remove_range_aux`. -/
theorem remove_range_aux_get? (lo hi : ℤ) (l : List RotatingArcCircle) :
    ∀ (n i : ℕ),
      (remove_range_aux lo hi n l).get? i =
        (l.get? i).map (fun c =>
          if lo ≤ ((n + i : ℕ) : ℤ) ∧ ((n + i : ℕ) : ℤ) < hi then
            { c with active := false } else c) := by
  induction l with
  | nil => intro n i; simp [remove_range_aux]
  | cons c rest ih =>
    intro n i
    cases i with
    | zero => simp [remove_range_aux]
    | succ i =>
      have hn : (n + 1 + i : ℕ) = (n + (i + 1) : ℕ) := by omega
      simp only [remove_range_aux, List.get?_cons_succ, ih (n + 1) i, hn]

/-- Indexwise description of `remove_range`. -/
theorem remove_range_get? (l : List RotatingArcCircle) (lo hi : ℤ) (i : ℕ) :
    (remove_range l lo hi).get? i =
      (l.get? i).map (fun c =>
        if lo ≤ (i : ℤ) ∧ (i : ℤ) < hi then { c with active := false }
        else c) := by
  simpa using remove_range_aux_get? lo hi l 0 i

/-- Claim C1: when the escape scan's maximum (the maximum of the current
active index and `⌊(|radial| + ballRadius - baseRadius) / ringSpacing⌋`
over the balls with nonzero radial vector and positive outward radial
speed) exceeds the active index, the skip path fires: every ring with
index in `[activeIndex, min maxEscapeIndex N)` ends the tick destroyed,
with no test of any ball angle against any gap, rings outside that range
are untouched, the balls are untouched, and the active index is set to
the scan maximum even when it exceeds the ring count. -/
theorem skip_destruction_correct (cfg : Config) (s : GameState)
    (h : s.active_circle_index <
      max_escape_index cfg s.active_circle_index s.balls) :
    (breach_step cfg s).active_circle_index =
        max_escape_index cfg s.active_circle_index s.balls ∧
    (breach_step cfg s).balls = s.balls ∧
    (∀ i : ℕ, s.active_circle_index ≤ (i : ℤ) →
        (i : ℤ) < min (max_escape_index cfg s.active_circle_index s.balls)
          (s.circles.length : ℤ) →
        ((breach_step cfg s).circles.get? i).map RotatingArcCircle.active =
          some false) ∧
    (∀ i : ℕ, ¬(s.active_circle_index ≤ (i : ℤ) ∧
        (i : ℤ) < min (max_escape_index cfg s.active_circle_index s.balls)
          (s.circles.length : ℤ)) →
        (breach_step cfg s).circles.get? i = s.circles.get? i) ∧
    s.active_circle_index ≤ max_escape_index cfg s.active_circle_index s.balls ∧
    (∀ b ∈ s.balls, qualifies cfg b →
        esc cfg b ≤ max_escape_index cfg s.active_circle_index s.balls) ∧
    (max_escape_index cfg s.active_circle_index s.balls =
        s.active_circle_index ∨
      ∃ b ∈ s.balls, qualifies cfg b ∧
        esc cfg b = max_escape_index cfg s.active_circle_index s.balls) := by
  have hstep : breach_step cfg s =
      { s with
        circles :=
          remove_range s.circles s.active_circle_index
            (min (max_escape_index cfg s.active_circle_index s.balls)
              (s.circles.length : ℤ)),
        active_circle_index :=
          max_escape_index cfg s.active_circle_index s.balls } := by
    simp only [breach_step]
    rw [if_pos h]
  obtain ⟨hmono, hub, hattain⟩ :=
    foldl_escape_spec cfg s.balls s.active_circle_index
  refine ⟨by rw [hstep], by rw [hstep], ?_, ?_, hmono, hub, hattain⟩
  · intro i hlo hhi
    rw [hstep]
    have hilen : i < s.circles.length := by
      have h2 := (lt_min_iff.mp hhi).2
      exact_mod_cast h2
    have hc : s.circles.get? i = some (s.circles.get ⟨i, hilen⟩) :=
      List.get?_eq_get hilen
    have hcond : s.active_circle_index ≤ (i : ℤ) ∧
        (i : ℤ) < min (max_escape_index cfg s.active_circle_index s.balls)
          (s.circles.length : ℤ) := ⟨hlo, hhi⟩
    show ((remove_range s.circles s.active_circle_index
        (min (max_escape_index cfg s.active_circle_index s.balls)
          (s.circles.length : ℤ))).get? i).map RotatingArcCircle.active =
      some false
    rw [remove_range_get?, hc]
    simp only [Option.map_some']
    rw [if_pos hcond]
  · intro i hni
    rw [hstep]
    show (remove_range s.circles s.active_circle_index
        (min (max_escape_index cfg s.active_circle_index s.balls)
          (s.circles.length : ℤ))).get? i = s.circles.get? i
    rw [remove_range_get?]
    cases hc : s.circles.get? i with
    | none => simp
    | some c =>
      simp only [Option.map_some']
      rw [if_neg hni]

/-- Concrete instances used by witnesses: one outward-racing ball far past
the rings. -/
def ballW : BallS := ⟨40, 0, 1, 0, 2⟩

def cfgW : Config := ⟨0, 0, 10, 5⟩

def circW : RotatingArcCircle := ⟨10, 0, 5, 1, 0, true⟩

def stateW : GameState := ⟨[circW, circW, circW], [ballW], 0⟩

/-- On the witness state the escape scan yields 6. -/
theorem maxW_eval : max_escape_index cfgW 0 [ballW] = 6 := by
  have h1600 : Real.sqrt 1600 = 40 := by
    rw [show (1600 : ℝ) = 40 ^ 2 by norm_num]
    exact Real.sqrt_sq (by norm_num)
  simp only [max_escape_index, List.foldl, escape_step, ballW, cfgW]
  norm_num [h1600]

/-- Witness for C1: the skip path fires on the concrete state (the scan
maximum 6 exceeds the active index 0 and also the ring count 3) and the
active index jumps to 6. -/
theorem skip_destruction_witness :
    stateW.active_circle_index <
      max_escape_index cfgW stateW.active_circle_index stateW.balls ∧
    (breach_step cfgW stateW).active_circle_index =
      max_escape_index cfgW stateW.active_circle_index stateW.balls := by
  have h : stateW.active_circle_index <
      max_escape_index cfgW stateW.active_circle_index stateW.balls := by
    show (0 : ℤ) < max_escape_index cfgW 0 [ballW]
    rw [maxW_eval]
    norm_num
  exact ⟨h, (skip_destruction_correct cfgW stateW h).1⟩

/-- Reduction: with no skip and the active index at or past the ring
count, the breach phase is a no-op. -/
theorem breach_step_not_lt (cfg : Config) (s : GameState)
    (hm : ¬ s.active_circle_index <
      max_escape_index cfg s.active_circle_index s.balls)
    (hlen : ¬ s.active_circle_index < (s.circles.length : ℤ)) :
    breach_step cfg s = s := by
  simp only [breach_step]
  rw [if_neg hm, if_neg hlen]

/-- Reduction: with no skip and no ring at the active index, the breach
phase is a no-op. -/
theorem breach_step_none (cfg : Config) (s : GameState)
    (hm : ¬ s.active_circle_index <
      max_escape_index cfg s.active_circle_index s.balls)
    (hlen : s.active_circle_index < (s.circles.length : ℤ))
    (hget : s.circles.get? s.active_circle_index.toNat = none) :
    breach_step cfg s = s := by
  simp only [breach_step]
  rw [if_neg hm, if_pos hlen, hget]

/-- Reduction: with no skip, the breach phase is the precise test on the
ring at the active index. -/
theorem breach_step_some (cfg : Config) (s : GameState)
    (hm : ¬ s.active_circle_index <
      max_escape_index cfg s.active_circle_index s.balls)
    (hlen : s.active_circle_index < (s.circles.length : ℤ))
    (c : RotatingArcCircle)
    (hget : s.circles.get? s.active_circle_index.toNat = some c) :
    breach_step cfg s =
      (if c.active then
        (if s.balls.any (breach_cond cfg c) then
          { s with
            circles :=
              remove_range s.circles s.active_circle_index
                (s.active_circle_index + 1),
            active_circle_index := s.active_circle_index + 1,
            balls := s.balls.map boost }
        else s)
      else s) := by
  simp only [breach_step]
  rw [if_neg hm, if_pos hlen, hget]

/-- Claim C2 (amended): in a tick where the skip path does not fire, only
the ring at the active index can change; it is destroyed (with the index
advanced by one and every ball boosted) exactly when it exists, is active,
and some ball satisfies the breach condition — outer edge at or past the
ring radius, moving outward, and angular position inside the ring's
current gap interval as tested by `angle_in_range` (inclusive at the
interval boundaries, not strict).  If no ball breaches (in particular if
every ball touching the ring radius has its angle outside the gap),
nothing changes.  The destruction effect does not depend on which ball
breaches, so testing stops at the first match. -/
theorem precise_breach_correct (cfg : Config) (s : GameState)
    (h0 : 0 ≤ s.active_circle_index)
    (hm : ¬ s.active_circle_index <
      max_escape_index cfg s.active_circle_index s.balls) :
    (∀ i : ℕ, (i : ℤ) ≠ s.active_circle_index →
        (breach_step cfg s).circles.get? i = s.circles.get? i) ∧
    (∀ c, s.circles.get? s.active_circle_index.toNat = some c →
        c.active = true → s.balls.any (breach_cond cfg c) = true →
        ((breach_step cfg s).circles.get? s.active_circle_index.toNat =
            some { c with active := false } ∧
          (breach_step cfg s).active_circle_index =
            s.active_circle_index + 1 ∧
          (breach_step cfg s).balls = s.balls.map boost)) ∧
    (∀ c, s.circles.get? s.active_circle_index.toNat = some c →
        (c.active = false ∨ s.balls.any (breach_cond cfg c) = false) →
        breach_step cfg s = s) ∧
    (s.circles.get? s.active_circle_index.toNat = none →
        breach_step cfg s = s) := by
  have htn : ((s.active_circle_index.toNat : ℕ) : ℤ) =
      s.active_circle_index := Int.toNat_of_nonneg h0
  have hlen_of_some : ∀ c,
      s.circles.get? s.active_circle_index.toNat = some c →
      s.active_circle_index < (s.circles.length : ℤ) := by
    intro c hc
    have := List.get?_eq_some.mp hc
    obtain ⟨hlt, _⟩ := this
    rw [← htn]
    exact_mod_cast hlt
  refine ⟨?_, ?_, ?_, ?_⟩
  · intro i hne
    by_cases hlen : s.active_circle_index < (s.circles.length : ℤ)
    · cases hoc : s.circles.get? s.active_circle_index.toNat with
      | none => rw [breach_step_none cfg s hm hlen hoc]
      | some c =>
        rw [breach_step_some cfg s hm hlen c hoc]
        by_cases hact : c.active = true
        · by_cases hany : s.balls.any (breach_cond cfg c) = true
          · rw [if_pos hact, if_pos hany]
            show (remove_range s.circles s.active_circle_index
                (s.active_circle_index + 1)).get? i = s.circles.get? i
            rw [remove_range_get?]
            have hni : ¬(s.active_circle_index ≤ (i : ℤ) ∧
                (i : ℤ) < s.active_circle_index + 1) := by
              rintro ⟨ha, hb⟩
              exact hne (by omega)
            cases hc : s.circles.get? i with
            | none => simp
            | some c' =>
              simp only [Option.map_some']
              rw [if_neg hni]
          · rw [if_pos hact, if_neg hany]
        · rw [if_neg hact]
    · rw [breach_step_not_lt cfg s hm hlen]
  · intro c hc hact hany
    have hlen := hlen_of_some c hc
    rw [breach_step_some cfg s hm hlen c hc, if_pos hact, if_pos hany]
    refine ⟨?_, rfl, rfl⟩
    show (remove_range s.circles s.active_circle_index
        (s.active_circle_index + 1)).get? s.active_circle_index.toNat =
      some { c with active := false }
    rw [remove_range_get?, hc]
    simp only [Option.map_some']
    rw [if_pos (by rw [htn]; omega)]
  · intro c hc hor
    have hlen := hlen_of_some c hc
    rw [breach_step_some cfg s hm hlen c hc]
    rcases hor with hact | hany
    · rw [if_neg (by simp [hact])]
    · by_cases hact : c.active = true
      · rw [if_pos hact, if_neg (by simp [hany])]
      · rw [if_neg hact]
  · intro hc
    by_cases hlen : s.active_circle_index < (s.circles.length : ℤ)
    · exact breach_step_none cfg s hm hlen hc
    · exact breach_step_not_lt cfg s hm hlen

/-- Boundary-case configuration: one ring of radius 15 whose gap interval
at this instant is exactly `[π, 13π/10]`, and one ball sitting exactly on
the negative x-axis (angular position exactly π, the gap start) moving
outward into the ring. -/
def cfg2 : Config := ⟨0, 0, 15, 2⟩

def ball2 : BallS := ⟨-14, 0, -1, 0, 2⟩

noncomputable def circ2 : RotatingArcCircle :=
  ⟨15, 1 / 10, 17 / 10 * π, 1, π - 17 / 10 * π - 1 / 10, true⟩

noncomputable def state2 : GameState := ⟨[circ2], [ball2], 0⟩

theorem sqrt196 : Real.sqrt 196 = 14 := by
  rw [show (196 : ℝ) = 14 ^ 2 by norm_num]
  exact Real.sqrt_sq (by norm_num)

/-- The boundary ball does not trigger the skip path. -/
theorem max2_eval : max_escape_index cfg2 0 [ball2] = 0 := by
  simp only [max_escape_index, List.foldl, escape_step, ball2, cfg2]
  norm_num [sqrt196]

/-- The gap of `circ2` at this instant is exactly `[π, 13π/10]`. -/
theorem gap2_eval : get_gap_angles circ2 = (π, 13 / 10 * π) := by
  have hpi := Real.pi_pos
  simp only [get_gap_angles, circ2]
  rw [show (1 / 10 : ℝ) + 17 / 10 * π + (π - 17 / 10 * π - 1 / 10) = π by ring,
      show (1 / 10 : ℝ) + 2 * π + (π - 17 / 10 * π - 1 / 10) = 13 / 10 * π by ring,
      fmod_eq_self hpi.le (by linarith),
      fmod_eq_self (by positivity) (by linarith)]

/-- The boundary ball's angular position is exactly π. -/
theorem atan2_boundary : atan2 ((0 : ℝ) - 0) ((-14 : ℝ) - 0) = π := by
  simp only [atan2]
  rw [if_neg (by norm_num), if_pos (by norm_num), if_pos (by norm_num)]
  norm_num [Real.arctan_zero]

/-- The boundary ball satisfies the breach condition: the inclusive
`angle_in_range` test accepts the angle that coincides with the gap
start. -/
theorem breach2_eval : breach_cond cfg2 circ2 ball2 = true := by
  have hpi := Real.pi_pos
  have hrad : circ2.radius = 15 := rfl
  simp only [breach_cond, ball2, cfg2, hrad]
  rw [if_pos (by norm_num [sqrt196])]
  rw [gap2_eval, atan2_boundary,
      fmod_eq_self hpi.le (by linarith)]
  show angle_in_range π π (13 / 10 * π) = true
  simp only [angle_in_range]
  rw [fmod_eq_self hpi.le (by linarith),
      fmod_eq_self (by positivity) (by linarith),
      if_pos (by linarith)]
  simp only [decide_eq_true_eq]
  exact ⟨le_refl _, by linarith⟩

/-- Full evaluation of the boundary tick: the precise path destroys the
ring and boosts the ball. -/
theorem state2_eval : breach_step cfg2 state2 =
    ⟨[{ circ2 with active := false }], [boost ball2], 1⟩ := by
  have hm : ¬ state2.active_circle_index <
      max_escape_index cfg2 state2.active_circle_index state2.balls := by
    show ¬ (0 : ℤ) < max_escape_index cfg2 0 [ball2]
    rw [max2_eval]
    omega
  have hlen : state2.active_circle_index < (state2.circles.length : ℤ) := by
    show (0 : ℤ) < ((1 : ℕ) : ℤ)
    norm_num
  have hget : state2.circles.get? state2.active_circle_index.toNat =
      some circ2 := rfl
  rw [breach_step_some cfg2 state2 hm hlen circ2 hget,
      if_pos (show circ2.active = true from rfl),
      if_pos (show state2.balls.any (breach_cond cfg2 circ2) = true by
        show [ball2].any (breach_cond cfg2 circ2) = true
        simp [breach2_eval])]
  show (⟨remove_range [circ2] 0 (0 + 1), [ball2].map boost, 0 + 1⟩ :
      GameState) = ⟨[{ circ2 with active := false }], [boost ball2], 1⟩
  norm_num [remove_range, remove_range_aux]

/-- Counterexample for C2 as stated: in a no-skip tick the ring at the
active index is destroyed by a ball whose angular position is exactly the
gap start — on the boundary of the gap interval, hence not strictly
within it.  The precise test is inclusive at the boundaries, not
strict. -/
theorem precise_boundary_cex :
    ((breach_step cfg2 state2).circles.get? 0).map RotatingArcCircle.active =
      some false ∧
    fmod (atan2 (ball2.py - cfg2.cy) (ball2.px - cfg2.cx)) (2 * π) =
      (get_gap_angles circ2).1 ∧
    ¬ (get_gap_angles circ2).1 <
      fmod (atan2 (ball2.py - cfg2.cy) (ball2.px - cfg2.cx)) (2 * π) := by
  have hpi := Real.pi_pos
  have hang : fmod (atan2 (ball2.py - cfg2.cy) (ball2.px - cfg2.cx))
      (2 * π) = π := by
    show fmod (atan2 ((0 : ℝ) - 0) ((-14 : ℝ) - 0)) (2 * π) = π
    rw [atan2_boundary]
    exact fmod_eq_self hpi.le (by linarith)
  refine ⟨?_, ?_, ?_⟩
  · rw [state2_eval]
    rfl
  · rw [hang, gap2_eval]
  · rw [hang, gap2_eval]
    exact lt_irrefl π

/-- A quiet state for the C2 witness: same ring, no balls. -/
noncomputable def state3 : GameState := ⟨[circ2], [], 0⟩

/-- Witness for C2 (amended): with no balls the precise path is reached
and nothing changes. -/
theorem precise_breach_witness :
    (0 : ℤ) ≤ state3.active_circle_index ∧
    (¬ state3.active_circle_index <
      max_escape_index cfg2 state3.active_circle_index state3.balls) ∧
    breach_step cfg2 state3 = state3 := by
  have h0 : (0 : ℤ) ≤ state3.active_circle_index := le_refl 0
  have hm : ¬ state3.active_circle_index <
      max_escape_index cfg2 state3.active_circle_index state3.balls := by
    show ¬ (0 : ℤ) < max_escape_index cfg2 0 []
    simp [max_escape_index]
  exact ⟨h0, hm,
    (precise_breach_correct cfg2 state3 h0 hm).2.2.1 circ2 rfl (Or.inr rfl)⟩

/-- Reduction: when the scan maximum exceeds the active index, the breach
phase is the skip destruction (which does not touch the balls). -/
theorem breach_step_skip (cfg : Config) (s : GameState)
    (h : s.active_circle_index <
      max_escape_index cfg s.active_circle_index s.balls) :
    breach_step cfg s =
      { s with
        circles :=
          remove_range s.circles s.active_circle_index
            (min (max_escape_index cfg s.active_circle_index s.balls)
              (s.circles.length : ℤ)),
        active_circle_index :=
          max_escape_index cfg s.active_circle_index s.balls } := by
  simp only [breach_step]
  rw [if_pos h]

/-- Claim C4 (amended): the global 1.1× ball speed-up accompanies a
ring destruction only on the precise-breach path.  When the skip path
fires — even though it destroys the ring at the current active index —
the ball velocities are left untouched; when the precise path destroys
the active ring, every ball is boosted. -/
theorem speed_boost_only_precise (cfg : Config) (s : GameState) :
    (s.active_circle_index <
        max_escape_index cfg s.active_circle_index s.balls →
      (breach_step cfg s).balls = s.balls) ∧
    (∀ c, ¬ s.active_circle_index <
        max_escape_index cfg s.active_circle_index s.balls →
      0 ≤ s.active_circle_index →
      s.circles.get? s.active_circle_index.toNat = some c →
      c.active = true →
      s.balls.any (breach_cond cfg c) = true →
      (breach_step cfg s).balls = s.balls.map boost) := by
  constructor
  · intro h
    rw [breach_step_skip cfg s h]
  · intro c hm h0 hget hact hany
    have htn : ((s.active_circle_index.toNat : ℕ) : ℤ) =
        s.active_circle_index := Int.toNat_of_nonneg h0
    have hlen : s.active_circle_index < (s.circles.length : ℤ) := by
      obtain ⟨hlt, _⟩ := List.get?_eq_some.mp hget
      rw [← htn]
      exact_mod_cast hlt
    rw [breach_step_some cfg s hm hlen c hget, if_pos hact, if_pos hany]

/-- Counterexample for C4 as stated: on the concrete skip tick the ring
at the current active index (index 0, initially active) is destroyed,
yet the balls are unchanged — and unchanged is not the same as boosted,
since the ball's velocity is nonzero.  So a destruction of the
currently-active ring via the skip path produces no speed-up. -/
theorem skip_no_boost_cex :
    (stateW.circles.get? 0).map RotatingArcCircle.active = some true ∧
    ((breach_step cfgW stateW).circles.get? 0).map RotatingArcCircle.active =
      some false ∧
    (breach_step cfgW stateW).balls = stateW.balls ∧
    stateW.balls ≠ stateW.balls.map boost := by
  have h : stateW.active_circle_index <
      max_escape_index cfgW stateW.active_circle_index stateW.balls := by
    show (0 : ℤ) < max_escape_index cfgW 0 [ballW]
    rw [maxW_eval]
    omega
  have h6 : max_escape_index cfgW stateW.active_circle_index stateW.balls =
      6 := maxW_eval
  have hidx : stateW.active_circle_index = 0 := rfl
  have hlen3 : ((stateW.circles.length : ℕ) : ℤ) = 3 := rfl
  have hE := breach_step_skip cfgW stateW h
  refine ⟨rfl, ?_, by rw [hE], ?_⟩
  · rw [hE]
    show ((remove_range stateW.circles stateW.active_circle_index
        (min (max_escape_index cfgW stateW.active_circle_index stateW.balls)
          (stateW.circles.length : ℤ))).get? 0).map
        RotatingArcCircle.active = some false
    rw [remove_range_get?,
        show stateW.circles.get? 0 = some circW from rfl]
    simp only [Option.map_some']
    rw [if_pos (by rw [h6, hidx, hlen3]; norm_num)]
  · show [ballW] ≠ [ballW].map boost
    simp only [List.map_cons, List.map_nil, ne_eq, List.cons.injEq,
      and_true]
    intro hcon
    have hvx : ballW.vx = (boost ballW).vx := by rw [← hcon]
    simp only [ballW, boost] at hvx
    norm_num at hvx

/-- Witness for C4 (amended): on the concrete skip tick the balls are
returned unchanged. -/
theorem speed_boost_witness :
    stateW.active_circle_index <
      max_escape_index cfgW stateW.active_circle_index stateW.balls ∧
    (breach_step cfgW stateW).balls = stateW.balls := by
  have h : stateW.active_circle_index <
      max_escape_index cfgW stateW.active_circle_index stateW.balls := by
    show (0 : ℤ) < max_escape_index cfgW 0 [ballW]
    rw [maxW_eval]
    omega
  exact ⟨h, (speed_boost_only_precise cfgW stateW).1 h⟩

/-- Claim C5: the end-of-tick evaluation reaches `Won` exactly when the
active index is at or past the ring count and has over-advanced it by
more than 100 (`len(circles) - active_circle_index < -100`); with time
remaining, merely reaching `activeIndex = N` leaves the match running. -/
theorem won_condition (n : ℕ) (idx : ℤ) (t : ℝ) :
    (end_state n idx t = MatchState.Won ↔
      ((n : ℤ) ≤ idx ∧ (n : ℤ) - idx < -100)) ∧
    (((n : ℤ) ≤ idx ∧ (n : ℤ) - idx < -100) ↔ (n : ℤ) + 100 < idx) ∧
    (0 < t → end_state n (n : ℤ) t = MatchState.Running) := by
  refine ⟨⟨?_, ?_⟩, by omega, ?_⟩
  · intro h
    by_contra hc
    simp only [end_state] at h
    rw [if_neg hc] at h
    by_cases ht : t ≤ 0
    · rw [if_pos ht] at h
      exact MatchState.noConfusion h
    · rw [if_neg ht] at h
      exact MatchState.noConfusion h
  · intro hc
    simp only [end_state]
    rw [if_pos hc]
  · intro ht
    simp only [end_state]
    rw [if_neg (by omega), if_neg (by linarith)]

/-- Witness for C5: three rings all cleared one at a time
(`activeIndex = N = 3`) with time on the clock is still `Running`. -/
theorem won_condition_witness :
    (0 : ℝ) < 1 ∧ end_state 3 (3 : ℤ) 1 = MatchState.Running :=
  ⟨by norm_num, (won_condition 3 3 1).2.2 (by norm_num)⟩

/-- Claim C6 (amended): the win test is evaluated before the loss test,
so `Won` has the higher priority: when the over-advance condition holds,
the match is `Won` even in a tick where `timeLeft ≤ 0`; only when the win
condition fails does `timeLeft ≤ 0` produce `Lost` (and then it does so
regardless of ring state). -/
theorem lost_priority (n : ℕ) (idx : ℤ) (t : ℝ) :
    (t ≤ 0 → ¬((n : ℤ) ≤ idx ∧ (n : ℤ) - idx < -100) →
      end_state n idx t = MatchState.Lost) ∧
    (((n : ℤ) ≤ idx ∧ (n : ℤ) - idx < -100) →
      end_state n idx t = MatchState.Won) := by
  constructor
  · intro ht hw
    simp only [end_state]
    rw [if_neg hw, if_pos ht]
  · intro hw
    simp only [end_state]
    rw [if_pos hw]

/-- Counterexample for C6 as stated: with 3 rings, an active index of 104
and the timer exactly expired, the tick in which both terminal conditions
hold ends in `Won`, not `Lost` — the code tests the win condition
first. -/
theorem lost_priority_cex :
    (0 : ℝ) ≤ 0 ∧ end_state 3 104 0 = MatchState.Won ∧
      ¬ end_state 3 104 0 = MatchState.Lost := by
  have hW : end_state 3 104 0 = MatchState.Won := by
    simp only [end_state]
    rw [if_pos (by norm_num)]
  refine ⟨le_refl 0, hW, ?_⟩
  rw [hW]
  intro hcon
  exact MatchState.noConfusion hcon

/-- Witness for C6 (amended): timer expired without the win condition
gives `Lost`. -/
theorem lost_priority_witness :
    (0 : ℝ) ≤ 0 ∧ ¬((3 : ℤ) ≤ 0 ∧ (3 : ℤ) - 0 < -100) ∧
      end_state 3 0 0 = MatchState.Lost :=
  ⟨le_refl 0, by norm_num, (lost_priority 3 0 0).1 (le_refl 0) (by norm_num)⟩

/-- The callback changes the ball count only below the cap. -/
theorem ball_ball_collision_length (sl : Bool) (bs : List BallS) (h : ℕ)
    (nb : BallS) :
    (ball_ball_collision sl bs h nb).balls.length =
      if bs.length < 100 then bs.length + 1 else bs.length := by
  simp only [ball_ball_collision]
  by_cases hlt : bs.length < 100
  · rw [if_pos hlt, if_pos hlt]
    simp
  · rw [if_neg hlt, if_neg hlt]

/-- Claim C7 (amended): provided the initial setup creates at most 100
balls, the ball population never exceeds 100 in any reachable state —
the collision callback spawns a new ball only while the list holds fewer
than 100 balls, and (as modelled by `BallsReachable`) no other code path
creates balls after setup. -/
theorem ball_cap_invariant (init : List BallS) (hinit : init.length ≤ 100) :
    ∀ bs, BallsReachable init bs → bs.length ≤ 100 := by
  intro bs hreach
  induction hreach with
  | base => exact hinit
  | collide sl hits nb hprev ih =>
    rw [ball_ball_collision_length]
    split_ifs with hlt
    · omega
    · exact ih

/-- A motionless unit ball used in concrete counting states. -/
def ball0 : BallS := ⟨0, 0, 0, 0, 1⟩

/-- Counterexample for C7 as stated: nothing caps the initial setup, so a
run started with `--initial_balls 101` is already in a reachable state
with more than 100 balls before any collision fires. -/
theorem ball_cap_cex :
    BallsReachable (List.replicate 101 ball0) (List.replicate 101 ball0) ∧
    100 < (List.replicate 101 ball0).length :=
  ⟨BallsReachable.base, by simp⟩

/-- Witness for C7 (amended): from one initial ball, the state after one
spawning collision still holds at most 100 balls. -/
theorem ball_cap_witness :
    ([ball0].length ≤ 100) ∧
    (ball_ball_collision true [ball0] 0 ball0).balls.length ≤ 100 :=
  ⟨by simp, ball_cap_invariant [ball0] (by simp) _
    (BallsReachable.collide true 0 ball0 BallsReachable.base)⟩

/-- Claim C8: after the particle update pass, every particle whose
decremented lifetime is not positive is dropped, so the particle list
carried into the next tick contains only particles with positive
lifetime; in particular the specification's concrete instance — lifetime
0.016 updated with dt = 0.0167 — is gone. -/
theorem particle_removal (ps : List Particle) (dt : ℝ) :
    (∀ q ∈ step_particles ps dt, 0 < q.lifetime) ∧
    (∀ p ∈ ps, (Particle.update p dt).lifetime ≤ 0 →
      Particle.update p dt ∉ step_particles ps dt) ∧
    step_particles [⟨0, 0, 0, 0, 0.016, (0, 0, 0), 1⟩] 0.0167 = [] := by
  refine ⟨?_, ?_, ?_⟩
  · intro q hq
    simp only [step_particles, List.mem_filter] at hq
    exact of_decide_eq_true hq.2
  · intro p _ hle hmem
    simp only [step_particles, List.mem_filter] at hmem
    have hpos := of_decide_eq_true hmem.2
    linarith
  · have hneg : ¬ (0 : ℝ) < 0.016 - 0.0167 := by norm_num
    simp [step_particles, Particle.update, hneg]

/-- A particle with a comfortable remaining lifetime. -/
def p1 : Particle := ⟨0, 0, 0, 0, 1, (0, 0, 0), 1⟩

/-- Witness for C8: a particle that still has positive lifetime after the
update survives the pass, and every survivor has positive lifetime. -/
theorem particle_removal_witness :
    Particle.update p1 (1 / 2) ∈ step_particles [p1] (1 / 2) ∧
    0 < (Particle.update p1 (1 / 2)).lifetime := by
  have hpos : (0 : ℝ) < (Particle.update p1 (1 / 2)).lifetime := by
    norm_num [Particle.update, p1]
  have hstep : step_particles [p1] (1 / 2) =
      [Particle.update p1 (1 / 2)] := by
    simp [step_particles, hpos]
    norm_num [Particle.update, p1]
  have hmem : Particle.update p1 (1 / 2) ∈ step_particles [p1] (1 / 2) := by
    rw [hstep]
    exact List.mem_singleton_self _
  exact ⟨hmem, (particle_removal [p1] (1 / 2)).1 _ hmem⟩

/-- Claim C9: a ball whose radial vector from the center has zero length
is skipped by both tests of the tick: the escape scan leaves the running
maximum unchanged (the `radial.length > 0` guard fails), and the precise
breach condition is false (its outward-speed conjunct is `0 > 0`), so the
ball can trigger no ring destruction.  Both computations are total here —
no division by the zero-length vector occurs in either test. -/
theorem zero_radial_skipped (cfg : Config) (c : RotatingArcCircle) (m : ℤ)
    (b : BallS) (hx : b.px = cfg.cx) (hy : b.py = cfg.cy) :
    escape_step cfg m b = m ∧ breach_cond cfg c b = false := by
  have hdx : b.px - cfg.cx = 0 := by rw [hx]; ring
  have hdy : b.py - cfg.cy = 0 := by rw [hy]; ring
  constructor
  · simp only [escape_step, hdx, hdy]
    rw [if_neg (by norm_num)]
  · simp only [breach_cond, hdx, hdy]
    rw [if_neg (by norm_num)]

/-- Witness for C9: a ball exactly at the center, with nonzero velocity,
contributes nothing to the scan and cannot breach. -/
def ballC : BallS := ⟨0, 0, 3, 4, 2⟩

theorem zero_radial_witness :
    ballC.px = cfgW.cx ∧ ballC.py = cfgW.cy ∧
    escape_step cfgW 0 ballC = 0 ∧ breach_cond cfgW circW ballC = false := by
  have h := zero_radial_skipped cfgW circW 0 ballC rfl rfl
  exact ⟨rfl, rfl, h.1, h.2⟩

/-- Claim C10: once the ball list holds 100 or more balls, the ball-ball
collision callback changes no observable state — no ball appended, hit
counter unchanged, no hit sound — yet it still reports the collision as
accepted (returns `True`), so the physics engine resolves the bounce but
the displayed hit count stops growing from ball-ball collisions. -/
theorem collision_callback_at_cap (sl : Bool) (balls : List BallS)
    (hits : ℕ) (nb : BallS) (h : 100 ≤ balls.length) :
    ball_ball_collision sl balls hits nb =
      { balls := balls, hits := hits, sound_played := false,
        accepted := true } := by
  simp only [ball_ball_collision]
  rw [if_neg (by omega)]

/-- Witness for C10: at exactly 100 balls the callback is inert but
accepting. -/
theorem collision_callback_at_cap_witness :
    100 ≤ (List.replicate 100 ball0).length ∧
    ball_ball_collision true (List.replicate 100 ball0) 0 ball0 =
      { balls := List.replicate 100 ball0, hits := 0,
        sound_played := false, accepted := true } :=
  ⟨by simp, collision_callback_at_cap true (List.replicate 100 ball0) 0
    ball0 (by simp)⟩
